import Mathlib

/-
Verification of scripts/uso_cluster_to_json.py: a line-oriented parser that
converts an HPC cluster usage log into a nested mapping
timestamp -> user -> gpu_type -> job_id -> job record.

The Python source is shallowly embedded below.  Files are modelled as the
string of their contents, i.e. as valid UTF-8 text — the domain on which
the program is defined, since parse_usage_file opens the file with a
strict utf-8 decode.  Reading a file in text mode is modelled as
splitting that string into lines (universal-newline translation).  The
byte-level tail windows of parse_last_usage_file are modelled at the
character level: a trailing window of t bytes holds the longest character
suffix occupying at most t bytes, which is exactly what slicing the
encoded bytes and decoding (strictly, or ignoring errors when the cut
lands inside a character) produces on valid UTF-8 contents; the
progressive 4MB/16MB/64MB/whole-file loop is kept as in the source.
Characters are modelled at the ASCII level: the whitespace and digit
classes used by the Python regex module and by int() are modelled by
their ASCII members, which covers every construct appearing in the log
format.
-/

set_option autoImplicit false

namespace Uso

/-- Whitespace class of Python's regex \s and str.strip, ASCII part. -/
def pyIsSpace (c : Char) : Bool :=
  c == ' ' || c == '\t' || c == '\n' || c == '\x0d' || c == '\x0b' || c == '\x0c'

/-- Numeric value of a decimal digit character. -/
def dval (c : Char) : Nat := c.toNat - 48

/-- ASCII uppercase test, the class [A-Z] of the record regex. -/
def isUpperAZ (c : Char) : Bool := 'A' ≤ c && c ≤ 'Z'

/-- Lowercase an ASCII letter; other characters are unchanged.  Models the
IGNORECASE matching of month and weekday names, which are ASCII. -/
def lowerAZ (c : Char) : Char :=
  if isUpperAZ c then Char.ofNat (c.toNat + 32) else c

/-- Python str.strip(): drop whitespace from both ends (left after right). -/
def pyStripL (cs : List Char) : List Char :=
  List.dropWhile pyIsSpace ((List.dropWhile pyIsSpace cs.reverse).reverse)

/-- Python line.rstrip(chr(10)): drop trailing newline characters. -/
def rstripNlL (cs : List Char) : List Char :=
  (List.dropWhile (fun c => c == '\n') cs.reverse).reverse

/-- String version of pyStripL. -/
def pyStrip (s : String) : String := (pyStripL s.toList).asString

/-- String version of rstripNlL. -/
def rstripNl (s : String) : String := (rstripNlL s.toList).asString

/-- Python s.split(c, 1) when c occurs in s: the part before the first
occurrence of c and the part after it. -/
def splitOnce (cs : List Char) (c : Char) : List Char × List Char :=
  (cs.takeWhile (fun x => !(x == c)), (cs.dropWhile (fun x => !(x == c))).drop 1)

/-- Helper for pySplitComma: accumulate the current piece (reversed). -/
def splitCommaAux : List Char → List Char → List (List Char)
  | [], acc => [acc.reverse]
  | c :: rest, acc =>
    if c == ',' then acc.reverse :: splitCommaAux rest []
    else splitCommaAux rest (c :: acc)

/-- Python s.split(','): split on every comma, keeping empty pieces. -/
def pySplitComma (s : String) : List String :=
  (splitCommaAux s.toList []).map List.asString

/-!  The timestamp classifier.  Python's
datetime.strptime(s, "%a %b %d %H:%M:%S %Y") compiles the format to a
case-insensitive regex: an abbreviated weekday name, whitespace, an
abbreviated month name, whitespace, a day (3[01]|[12]\d|0[1-9]|[1-9]),
whitespace, an hour (2[0-3]|[0-1]\d|\d), a colon, a minute ([0-5]\d|\d),
a colon, a second (6[0-1]|[0-5]\d|\d), whitespace, a four-digit year, and
the whole string must be consumed.  The parsed fields are then passed to
the datetime constructor, which additionally rejects second values above
59, a year 0000, and a day beyond the length of the month.  The model
below follows that pipeline with explicit backtracking between the
two-digit and one-digit alternatives of each numeric group. -/

/-- Case-insensitive ASCII match of a fixed lowercase word. -/
def matchCI : List Char → List Char → Option (List Char)
  | [], cs => some cs
  | _ :: _, [] => none
  | p :: ps, c :: cs => if lowerAZ c == p then matchCI ps cs else none

/-- Abbreviated weekday names (C locale), lowercased. -/
def weekdayNames : List (List Char) :=
  [("mon").toList, ("tue").toList, ("wed").toList, ("thu").toList,
   ("fri").toList, ("sat").toList, ("sun").toList]

/-- Abbreviated month names (C locale), lowercased, in month order. -/
def monthNames : List (List Char) :=
  [("jan").toList, ("feb").toList, ("mar").toList, ("apr").toList,
   ("may").toList, ("jun").toList, ("jul").toList, ("aug").toList,
   ("sep").toList, ("oct").toList, ("nov").toList, ("dec").toList]

/-- Match any of the weekday names, case-insensitively. -/
def matchWeekday (cs : List Char) (k : List Char → Bool) : Bool :=
  weekdayNames.any (fun w =>
    match matchCI w cs with
    | some rest => k rest
    | none => false)

/-- Helper for matchMonth: try month names in order, numbering from m. -/
def matchMonthAux : List (List Char) → Nat → List Char → (Nat → List Char → Bool) → Bool
  | [], _, _, _ => false
  | w :: ws, m, cs, k =>
    (match matchCI w cs with
     | some rest => k m rest
     | none => false)
    || matchMonthAux ws (m + 1) cs k

/-- Match a month name case-insensitively and pass its number (1-12) on. -/
def matchMonth (cs : List Char) (k : Nat → List Char → Bool) : Bool :=
  matchMonthAux monthNames 1 cs k

/-- Match one mandatory whitespace character and then greedily all further
whitespace (the tokens following \s+ in the format never start with
whitespace, so maximal munch is faithful to the regex). -/
def skipWs1 (cs : List Char) (k : List Char → Bool) : Bool :=
  match cs with
  | [] => false
  | c :: rest => pyIsSpace c && k (rest.dropWhile pyIsSpace)

/-- Match a literal character. -/
def matchLit (c : Char) (cs : List Char) (k : List Char → Bool) : Bool :=
  match cs with
  | [] => false
  | x :: rest => x == c && k rest

/-- A numeric group of the form alt2|alt1 where the two-digit alternatives
come first: try a two-digit match accepted by ok2, and if the continuation
fails fall back to a one-digit match accepted by ok1 (regex backtracking). -/
def numGroup (ok2 : Nat → Nat → Bool) (ok1 : Nat → Bool) (cs : List Char)
    (k : Nat → List Char → Bool) : Bool :=
  (match cs with
   | c1 :: c2 :: rest =>
     c1.isDigit && c2.isDigit && ok2 (dval c1) (dval c2)
       && k (10 * dval c1 + dval c2) rest
   | _ => false)
  || (match cs with
      | c1 :: rest => c1.isDigit && ok1 (dval c1) && k (dval c1) rest
      | [] => false)

/-- Exactly four digits (the %Y group). -/
def year4 (cs : List Char) (k : Nat → List Char → Bool) : Bool :=
  match cs with
  | c1 :: c2 :: c3 :: c4 :: rest =>
    c1.isDigit && c2.isDigit && c3.isDigit && c4.isDigit
      && k (1000 * dval c1 + 100 * dval c2 + 10 * dval c3 + dval c4) rest
  | _ => false

/-- Whether a year is a leap year (as the datetime module computes it). -/
def isLeap (y : Nat) : Bool := y % 4 == 0 && (y % 100 != 0 || y % 400 == 0)

/-- Number of days of month m in year y. -/
def daysInMonth (y m : Nat) : Nat :=
  if m == 2 then (if isLeap y then 29 else 28)
  else if m == 4 || m == 6 || m == 9 || m == 11 then 30
  else 31

/-- The strptime pipeline for the format of TIMESTAMP_FORMAT followed by the
datetime constructor validation, on an already stripped string. -/
def strptimeOk (cs : List Char) : Bool :=
  matchWeekday cs (fun cs1 =>
  skipWs1 cs1 (fun cs2 =>
  matchMonth cs2 (fun mon cs3 =>
  skipWs1 cs3 (fun cs4 =>
  numGroup (fun d1 d2 => (d1 == 3 && d2 ≤ 1) || (1 ≤ d1 && d1 ≤ 2) || (d1 == 0 && 1 ≤ d2))
      (fun d => 1 ≤ d) cs4 (fun day cs5 =>
  skipWs1 cs5 (fun cs6 =>
  numGroup (fun h1 h2 => (h1 == 2 && h2 ≤ 3) || h1 ≤ 1) (fun _ => true) cs6 (fun _hour cs7 =>
  matchLit ':' cs7 (fun cs8 =>
  numGroup (fun m1 _ => m1 ≤ 5) (fun _ => true) cs8 (fun _min cs9 =>
  matchLit ':' cs9 (fun cs10 =>
  numGroup (fun s1 s2 => (s1 == 6 && s2 ≤ 1) || s1 ≤ 5) (fun _ => true) cs10 (fun sec cs11 =>
  skipWs1 cs11 (fun cs12 =>
  year4 cs12 (fun yr cs13 =>
  cs13.isEmpty && decide (1 ≤ yr) && decide (sec ≤ 59)
    && decide (day ≤ daysInMonth yr mon))))))))))))))

/-- Embedding of is_timestamp_line: strip the line; an empty result is not a
timestamp; otherwise the stripped string is returned exactly when strptime
with TIMESTAMP_FORMAT accepts it (a ValueError from strptime or from the
datetime constructor yields None). -/
def is_timestamp_line (line : String) : Option String :=
  let sL := pyStripL line.toList
  if sL.isEmpty then none
  else if strptimeOk sL then some sL.asString else none

/-!  The record classifier.  RECORD_RE is
^\s*(?P<jobid>\d+)\s+(?P<user>\S+)\s+(?P<tres>.*?)\s+(?P<state>[A-Z]+)\s*$
matched with re.match.  Each greedy token before the lazy middle is
followed by a token of a disjoint character class, so its match is the
maximal run; the interaction of the greedy \s+ before the lazy .*? with
the tail \s+[A-Z]+\s*$ is modelled by explicit backtracking: longer
whitespace runs are preferred, and within one, shorter tres captures. -/

/-- Match \s+[A-Z]+\s*$ at this position, returning the [A-Z]+ capture.
The whitespace and uppercase runs are maximal: shortening either leaves a
character the next token cannot match. -/
def matchTailState (cs : List Char) : Option (List Char) :=
  match cs with
  | [] => none
  | c :: _ =>
    if pyIsSpace c then
      let rest := cs.dropWhile pyIsSpace
      let st := rest.takeWhile isUpperAZ
      let after := rest.dropWhile isUpperAZ
      if st.isEmpty then none
      else if after.all pyIsSpace then some st else none
    else none

/-- The lazy middle (?P<tres>.*?): try the shortest capture first; acc holds
the capture so far, reversed.  The dot of the regex does not match a
newline, so the capture never extends across one. -/
def lazySplit (acc : List Char) : List Char → Option (List Char × List Char)
  | [] => none
  | c :: rest =>
    match matchTailState (c :: rest) with
    | some st => some (acc.reverse, st)
    | none => if c == '\n' then none else lazySplit (c :: acc) rest

/-- Backtracking for the greedy \s+ before the lazy middle: try the maximal
whitespace run first and give characters back to the middle one at a time,
keeping at least one.  spRev is the reversed run still consumed. -/
def spaceBacktrack : List Char → List Char → Option (List Char × List Char)
  | [], _ => none
  | [_], region => lazySplit [] region
  | c :: spRev2, region =>
    match lazySplit [] region with
    | some r => some r
    | none => spaceBacktrack spRev2 (c :: region)

/-- Embedding of RECORD_RE.match on the characters of a line, returning the
four captures (jobid, user, tres, state) as strings. -/
def matchRecordL (cs : List Char) : Option (String × String × String × String) :=
  let cs1 := cs.dropWhile pyIsSpace
  let jd := cs1.takeWhile Char.isDigit
  let cs2 := cs1.dropWhile Char.isDigit
  if jd.isEmpty then none
  else
    match cs2 with
    | [] => none
    | c :: _ =>
      if pyIsSpace c then
        let cs3 := cs2.dropWhile pyIsSpace
        let us := cs3.takeWhile (fun x => !(pyIsSpace x))
        let cs4 := cs3.dropWhile (fun x => !(pyIsSpace x))
        if us.isEmpty then none
        else
          let sp := cs4.takeWhile pyIsSpace
          let rest0 := cs4.dropWhile pyIsSpace
          if sp.isEmpty then none
          else
            match spaceBacktrack sp.reverse rest0 with
            | some (tr, stt) =>
              some (jd.asString, us.asString, tr.asString, stt.asString)
            | none => none
      else none

/-- RECORD_RE.match on a line. -/
def matchRecordLine (line : String) : Option (String × String × String × String) :=
  matchRecordL line.toList

/-!  Ordered string-keyed maps, the model of Python dicts: lookup finds the
(unique) key, insertion overwrites in place or appends at the end. -/

/-- A Python dict with string keys: an ordered association list. -/
abbrev Dict (α : Type) := List (String × α)

/-- Lookup of a key in a Dict. -/
def dget {α : Type} : Dict α → String → Option α
  | [], _ => none
  | (k, v) :: rest, key => if k = key then some v else dget rest key

/-- Python d[key] = val: replace in place if the key exists, else append. -/
def dset {α : Type} : Dict α → String → α → Dict α
  | [], key, val => [(key, val)]
  | (k, v) :: rest, key, val =>
    if k = key then (k, val) :: rest else (k, v) :: dset rest key val

/-- One job's attributes, the leaf of the output structure. -/
structure JobRecord where
  gpu_number : Option Int
  cpu : Option Int
  mem : Option String
  node : Option Int
  billing : Option Int
  state : String
deriving DecidableEq

/-- Records of one (user, gpu_type): job id to record. -/
abbrev JobMap := Dict JobRecord

/-- Records of one user: gpu type to JobMap. -/
abbrev GpuMap := Dict JobMap

/-- Records of one timestamp block: user to GpuMap. -/
abbrev UserMap := Dict GpuMap

/-- The whole output: timestamp to UserMap. -/
abbrev ResultMap := Dict UserMap

instance : DecidableEq JobMap := inferInstance

instance : DecidableEq GpuMap := inferInstance

instance : DecidableEq UserMap := inferInstance

instance : DecidableEq ResultMap := inferInstance

/-!  Embedding of parse_tres_alloc and _safe_int. -/

/-- One iteration of the parse_tres_alloc loop: skip a piece that is empty
after stripping or contains no "=" sign; otherwise split it at its first
"=" and store the stripped key and value. -/
def tresStep (result : Dict String) (part : String) : Dict String :=
  let p := pyStripL part.toList
  if p.isEmpty then result
  else if !(p.contains '=') then result
  else
    let kv := splitOnce p '='
    dset result (pyStripL kv.1).asString (pyStripL kv.2).asString

/-- Embedding of parse_tres_alloc: split the TRES string on commas and run
the loop. -/
def parse_tres_alloc (tres : String) : Dict String :=
  (pySplitComma tres).foldl tresStep []

/-- Helper of the int() model: digits with single underscores strictly
between digits, folded to their decimal value. -/
def puGo (acc : Nat) : List Char → Option Nat
  | [] => some acc
  | '_' :: c :: rest => if c.isDigit then puGo (10 * acc + dval c) rest else none
  | c :: rest => if c.isDigit then puGo (10 * acc + dval c) rest else none

/-- An unsigned decimal numeral as int() accepts it: at least one digit,
with single underscores allowed between digits. -/
def parseUnderscoreNat : List Char → Option Nat
  | [] => none
  | c :: rest => if c.isDigit then puGo (dval c) rest else none

/-- Model of Python int(s) for base 10 (ASCII): surrounding whitespace is
allowed, then an optional sign and a digit group; anything else raises,
modelled as none. -/
def pyIntOfList : List Char → Option Int
  | cs =>
    match pyStripL cs with
    | '+' :: rest => (parseUnderscoreNat rest).map Int.ofNat
    | '-' :: rest => (parseUnderscoreNat rest).map (fun n => -(n : Int))
    | rest => (parseUnderscoreNat rest).map Int.ofNat

/-- Model of int() on a string. -/
def pyIntOfString (s : String) : Option Int := pyIntOfList s.toList

/-- Decimal value of a digit run (int() applied to the digits matched by
the regex group of r-string caret(\d+)). -/
def digitsVal (ds : List Char) : Nat := ds.foldl (fun a c => 10 * a + dval c) 0

/-- Embedding of _safe_int: None propagates; an int()-parseable string is
its value; otherwise the leading digit run, if any, is the value (the
re.match of the pattern anchored digit group); otherwise None. -/
def safe_int (val : Option String) : Option Int :=
  match val with
  | none => none
  | some v =>
    match pyIntOfString v with
    | some n => some n
    | none =>
      let ds := v.toList.takeWhile Char.isDigit
      if ds.isEmpty then none else some (Int.ofNat (digitsVal ds))

/-!  Building the nested structure.  ensure_nested walks the given keys,
creating an empty dict for every missing level, and returns the deepest
dict; the caller then assigns into it.  In this typed model every stored
value is a dict, so the isinstance branch of ensure_nested never fires.
ensure_ts is ensure_nested with one key; insertJob is ensure_nested with
the three keys (ts, user, gpu_type) followed by leaf[jobid] = rec, with
the in-place mutations written out as functional updates. -/

/-- ensure_nested(data, ts): create data[ts] = {} if missing (appending the
new key at the end, as Python dicts do). -/
def ensure_ts (d : ResultMap) (ts : String) : ResultMap :=
  match dget d ts with
  | some _ => d
  | none => d ++ [(ts, [])]

/-- The update of one timestamp block by one job record insertion: walk and
create the user and gpu_type levels, then assign the job id. -/
def insertUM (um : UserMap) (user gpu jobid : String) (rec : JobRecord) : UserMap :=
  let gm := (dget um user).getD []
  let jm := (dget gm gpu).getD []
  dset um user (dset gm gpu (dset jm jobid rec))

/-- ensure_nested(data, ts, user, gpu) followed by leaf[jobid] = rec. -/
def insertJob (d : ResultMap) (ts user gpu jobid : String) (rec : JobRecord) : ResultMap :=
  dset d ts (insertUM ((dget d ts).getD []) user gpu jobid rec)

/-- Lookup of the full path timestamp/user/gpu_type/jobid in the result. -/
def getPath (d : ResultMap) (ts user gpu jobid : String) : Option JobRecord :=
  (((dget d ts).bind (fun um => dget um user)).bind
    (fun gm => dget gm gpu)).bind (fun jm => dget jm jobid)

/-!  The record extractor of parse_usage_file / parse_usage_lines. -/

/-- The typed-GPU entries of a parsed TRES dict: for every key that starts
with "gres/gpu:" (such keys always contain a colon), the part after the
first colon paired with the value, in dict order. -/
def typed_gpu_entries (td : Dict String) : List (String × String) :=
  td.filterMap (fun kv =>
    if List.isPrefixOf (("gres/gpu:").toList) kv.1.toList && kv.1.toList.contains ':'
    then some ((splitOnce kv.1.toList ':').2.asString, kv.2)
    else none)

/-- Insertion of one retained record: one entry per typed-GPU pair, all
sharing the cpu/mem/node/billing/state values, each with its own
gpu_number. -/
def insertAll (d : ResultMap) (ts user jobid : String) (cpu : Option Int)
    (mem : Option String) (node billing : Option Int) (state : String)
    (typed : List (String × String)) : ResultMap :=
  typed.foldl
    (fun acc gv =>
      insertJob acc ts user gv.1 jobid
        ⟨safe_int (some gv.2), cpu, mem, node, billing, state⟩)
    d

/-- The parameters of one record insertion: the timestamp key, the user,
the job id, the shared attribute values and the typed-GPU pairs. -/
structure InsertCmd where
  ts : String
  user : String
  jobid : String
  cpu : Option Int
  mem : Option String
  node : Option Int
  billing : Option Int
  state : String
  typed : List (String × String)

/-- The control flow of the per-line loop after the timestamp branch,
which never reads the structure built so far: skip (none) for blank lines,
header lines, lines the record regex rejects, records seen before any
timestamp (current_ts is None or the falsy empty string), and records
without a typed-GPU key; otherwise the parameters of the insertion. -/
def stepDecision (cts : Option String) (line : String) : Option InsertCmd :=
  let sline := pyStripL line.toList
  if sline.isEmpty then none
  else if List.isPrefixOf (("JOBID").toList) sline then none
  else
    match matchRecordLine line with
    | none => none
    | some (jobid, user, tresRaw, state0) =>
      match cts with
      | none => none
      | some c =>
        if c.isEmpty then none
        else
          let td := parse_tres_alloc (pyStrip tresRaw)
          let typed := typed_gpu_entries td
          if typed.isEmpty then none
          else
            some
              { ts := c, user := user, jobid := jobid
                cpu := safe_int (dget td ("cpu")), mem := dget td ("mem")
                node := safe_int (dget td ("node"))
                billing := safe_int (dget td ("billing"))
                state := pyStrip state0, typed := typed }

/-- The body of the per-line loop after the timestamp branch: perform the
decided insertion, if any. -/
def stepData (cts : Option String) (data : ResultMap) (line : String) : ResultMap :=
  match stepDecision cts line with
  | none => data
  | some cmd =>
    insertAll data cmd.ts cmd.user cmd.jobid cmd.cpu cmd.mem cmd.node
      cmd.billing cmd.state cmd.typed

/-- The parser state: the structure built so far and the current timestamp
context. -/
structure ParseState where
  data : ResultMap
  current_ts : Option String
deriving DecidableEq

/-- One iteration of the line loop shared by parse_usage_file and
parse_usage_lines: strip trailing newlines, then either recognize a
timestamp line (record it and make it current) or run the record
extractor, which leaves current_ts unchanged. -/
def stepLine (st : ParseState) (raw_line : String) : ParseState :=
  let line := rstripNl raw_line
  match is_timestamp_line line with
  | some ts => { data := ensure_ts st.data ts, current_ts := some ts }
  | none => { st with data := stepData st.current_ts st.data line }

/-- The fold of the line loop from the initial empty state. -/
def parseLinesState (lines : List String) : ParseState :=
  lines.foldl stepLine { data := [], current_ts := none }

/-- Embedding of parse_usage_lines: fold the loop and return the data. -/
def parse_usage_lines (lines : List String) : ResultMap :=
  (parseLinesState lines).data

/-- Helper for fileLines: split at \r\n, \r and \n. -/
def fileLinesAux : List Char → List Char → List String
  | [], acc => if acc.isEmpty then [] else [acc.reverse.asString]
  | '\x0d' :: '\n' :: rest, acc => acc.reverse.asString :: fileLinesAux rest []
  | '\x0d' :: rest, acc => acc.reverse.asString :: fileLinesAux rest []
  | '\n' :: rest, acc => acc.reverse.asString :: fileLinesAux rest []
  | c :: rest, acc => fileLinesAux rest (c :: acc)

/-- The lines a Python text-mode file of the given contents yields under
universal-newline translation, with the line terminators removed (the loop
body removes them with rstrip anyway). -/
def fileLines (content : String) : List String :=
  fileLinesAux content.toList []

/-- Whether a character is a str.splitlines line boundary. -/
def isSplitlinesBreak (c : Char) : Bool :=
  c == '\n' || c == '\x0d' || c == '\x0b' || c == '\x0c' || c == '\x1c'
    || c == '\x1d' || c == '\x1e' || c == '\x85' || c == '\u2028' || c == '\u2029'

/-- Helper for pySplitlines. -/
def splitlinesAux : List Char → List Char → List String
  | [], acc => if acc.isEmpty then [] else [acc.reverse.asString]
  | '\x0d' :: '\n' :: rest, acc => acc.reverse.asString :: splitlinesAux rest []
  | c :: rest, acc =>
    if isSplitlinesBreak c then acc.reverse.asString :: splitlinesAux rest []
    else splitlinesAux rest (c :: acc)

/-- Python text.splitlines(). -/
def pySplitlines (content : String) : List String :=
  splitlinesAux content.toList []

/-- Embedding of parse_usage_file on the contents of the input file. -/
def parse_usage_file (content : String) : ResultMap :=
  parse_usage_lines (fileLines content)

/-- The suffix of the line list starting at the last line that
is_timestamp_line accepts, if any: the backward scan of
parse_last_usage_file followed by taking lines[last_ts_idx:]. -/
def lastTsSuffix : List String → Option (List String)
  | [] => none
  | l :: rest =>
    match lastTsSuffix rest with
    | some suf => some suf
    | none =>
      if (is_timestamp_line l).isSome then some (l :: rest) else none

/-- UTF-8 byte count of a character list. -/
def utf8Len : List Char → Nat
  | [] => 0
  | c :: cs => c.utf8Size + utf8Len cs

/-- The text a trailing byte window of t bytes holds: the longest
character suffix of the content occupying at most t bytes.  This is what
reading bytes[max(0, filesize - t):] of the (valid-UTF-8) file and
decoding yields: when the cut lands on a character boundary the strict
decode returns exactly these characters, and when it lands inside a
character the strict decode fails and the errors-ignoring decode drops
the leading continuation bytes, i.e. that cut character, leaving the same
suffix. -/
def tailWindowL (t : Nat) : List Char → List Char
  | [] => []
  | c :: cs => if utf8Len (c :: cs) ≤ t then c :: cs else tailWindowL t cs

/-- String version of tailWindowL. -/
def tailWindow (content : String) (t : Nat) : String :=
  (tailWindowL t content.toList).asString

/-- The window loop of parse_last_usage_file: for each tail size in turn,
decode the trailing window, split it with splitlines and scan backward
for a timestamp line; on the first hit parse from that line to the end of
the file; when every window (the last is the whole file) lacks one, fall
back to the full-file parse. -/
def tryWindows (content : String) : List Nat → ResultMap
  | [] => parse_usage_file content
  | t :: rest =>
    match lastTsSuffix (pySplitlines (tailWindow content t)) with
    | some suf => parse_usage_lines suf
    | none => tryWindows content rest

/-- Embedding of parse_last_usage_file on the contents of the input file:
an empty file returns {} at once; otherwise progressively larger tail
windows (4MB, 16MB, 64MB, then the whole file) are tried. -/
def parse_last_usage_file (content : String) : ResultMap :=
  if content.utf8ByteSize == 0 then []
  else
    tryWindows content
      [4 * 1024 * 1024, 16 * 1024 * 1024, 64 * 1024 * 1024, content.utf8ByteSize]

/-!  A second definition of the TRES split, following the specification
text amended at its one divergence from the code: a comma piece is kept
when it contains at least one "=" (the code keeps pieces with several "="
signs, splitting at the first), and key and value are the stripped parts
around that first "=".  parse_tres_alloc is proved equal to the dict of
these pairs below. -/

/-- The key/value pair a comma piece contributes, if any: kept exactly
when the stripped piece contains at least one "=", and split once at the
first "=", both sides stripped. -/
def pairOfPart (part : String) : Option (String × String) :=
  let p := pyStripL part.toList
  if p.contains '=' then
    some ((pyStripL (splitOnce p '=').1).asString,
          (pyStripL (splitOnce p '=').2).asString)
  else none

/-- The kept key/value pairs of a TRES string, spec-side description. -/
def tres_pairs (tres : String) : List (String × String) :=
  (pySplitComma tres).filterMap pairOfPart

/-- A Python dict built from a pair list by repeated assignment. -/
def dictOfPairs (ps : List (String × String)) : Dict String :=
  ps.foldl (fun d kv => dset d kv.1 kv.2) []

/-!  List lemmas used by the development. -/

theorem dropWhile_dropWhile {p q : Char → Bool}
    (hpq : ∀ c, p c = true → q c = true) :
    ∀ cs : List Char, List.dropWhile q (List.dropWhile p cs) = List.dropWhile q cs := by
  intro cs
  induction cs with
  | nil => rfl
  | cons c rest ih =>
    by_cases hp : p c = true
    · rw [List.dropWhile_cons_of_pos hp, List.dropWhile_cons_of_pos (hpq c hp), ih]
    · rw [List.dropWhile_cons_of_neg hp]

theorem dropWhile_append_cons {p : Char → Bool} {d : Char} (hd : p d = false) :
    ∀ (l m : List Char), List.dropWhile p (l ++ d :: m) = List.dropWhile p l ++ d :: m := by
  intro l m
  induction l with
  | nil =>
    simp only [List.nil_append, List.dropWhile_nil]
    rw [List.dropWhile_cons_of_neg (by simp [hd])]
  | cons c rest ih =>
    by_cases hp : p c = true
    · rw [List.cons_append, List.dropWhile_cons_of_pos hp, ih,
        List.dropWhile_cons_of_pos hp]
    · rw [List.cons_append, List.dropWhile_cons_of_neg hp,
        List.dropWhile_cons_of_neg hp, List.cons_append]

theorem dropWhile_append_of_all {p : Char → Bool} :
    ∀ (l m : List Char), (∀ c ∈ l, p c = true) →
      List.dropWhile p (l ++ m) = List.dropWhile p m := by
  intro l m h
  induction l with
  | nil => rfl
  | cons c rest ih =>
    rw [List.cons_append, List.dropWhile_cons_of_pos (h c (by simp))]
    exact ih (fun x hx => h x (by simp [hx]))

/-- Stripping the trailing newlines does not change the fully stripped
line, since newlines are whitespace. -/
theorem pyStripL_rstripNlL (cs : List Char) : pyStripL (rstripNlL cs) = pyStripL cs := by
  unfold pyStripL rstripNlL
  rw [List.reverse_reverse]
  rw [@dropWhile_dropWhile (fun c => c == '\n') pyIsSpace
    (fun c hc => by simp only [beq_iff_eq] at hc; subst hc; rfl)]

/-- is_timestamp_line is insensitive to the rstrip the line loop applies. -/
theorem is_ts_rstripNl (l : String) :
    is_timestamp_line (rstripNl l) = is_timestamp_line l := by
  unfold is_timestamp_line rstripNl
  rw [show (rstripNlL l.toList).asString.toList = rstripNlL l.toList from rfl,
    pyStripL_rstripNlL]

/-!  Dict lemmas. -/

theorem dget_dset_self {α : Type} (d : Dict α) (k : String) (v : α) :
    dget (dset d k v) k = some v := by
  induction d with
  | nil => simp [dget, dset]
  | cons kv rest ih =>
    by_cases h : kv.1 = k
    · simp [dset, dget, h]
    · simp [dset, dget, h, ih]

theorem dget_dset_ne {α : Type} (d : Dict α) (k k' : String) (v : α) (h : k' ≠ k) :
    dget (dset d k v) k' = dget d k' := by
  have hkk : ¬ k = k' := fun e => h e.symm
  induction d with
  | nil => simp [dget, dset, hkk]
  | cons kv rest ih =>
    by_cases hk : kv.1 = k
    · cases kv with
      | mk k0 v0 =>
        simp only at hk
        subst hk
        simp [dset, dget, hkk]
    · cases kv with
      | mk k0 v0 =>
        simp only at hk
        simp [dset, dget, hk, ih]

theorem dget_append_none {α : Type} (d e : Dict α) (k : String)
    (h : dget d k = none) : dget (d ++ e) k = dget e k := by
  induction d with
  | nil => rfl
  | cons kv rest ih =>
    by_cases hk : kv.1 = k
    · simp [dget, hk] at h
    · simp only [dget, hk, if_neg hk, List.cons_append] at h ⊢
      exact ih h

theorem dget_append_some {α : Type} (d e : Dict α) (k : String) (v : α)
    (h : dget d k = some v) : dget (d ++ e) k = some v := by
  induction d with
  | nil => simp [dget] at h
  | cons kv rest ih =>
    by_cases hk : kv.1 = k
    · simp only [dget, if_pos hk, List.cons_append] at h ⊢; exact h
    · simp only [dget, if_neg hk, List.cons_append] at h ⊢
      exact ih h

theorem ensure_ts_get_self (d : ResultMap) (ts : String) :
    dget (ensure_ts d ts) ts = some ((dget d ts).getD []) := by
  unfold ensure_ts
  cases h : dget d ts with
  | none => rw [dget_append_none d _ ts h]; simp [dget]
  | some um => simp [h]

theorem ensure_ts_get_ne (d : ResultMap) (ts k : String) (h : k ≠ ts) :
    dget (ensure_ts d ts) k = dget d k := by
  unfold ensure_ts
  cases hd : dget d ts with
  | none =>
    cases hk : dget d k with
    | none =>
      have hts : ¬ ts = k := fun e => h e.symm
      rw [dget_append_none d _ k hk]
      simp [dget, hts]
    | some v => rw [dget_append_some d _ k v hk]
  | some um => rfl

/-!  insertJob and insertAll lemmas.  Context arguments are implicit; only
the hypotheses are explicit. -/

theorem insertJob_get_self {d : ResultMap} {ts u g j : String} {r : JobRecord} :
    dget (insertJob d ts u g j r) ts
      = some (insertUM ((dget d ts).getD []) u g j r) := by
  unfold insertJob
  exact dget_dset_self d ts _

theorem insertJob_get_ne {d : ResultMap} {ts u g j : String} {r : JobRecord}
    {k : String} (h : k ≠ ts) :
    dget (insertJob d ts u g j r) k = dget d k := by
  unfold insertJob
  exact dget_dset_ne d ts k _ h

theorem getPath_insertJob_self {d : ResultMap} {ts u g j : String} {r : JobRecord} :
    getPath (insertJob d ts u g j r) ts u g j = some r := by
  unfold getPath insertJob insertUM
  simp [dget_dset_self]

theorem getPath_insertJob_ne_gpu {d : ResultMap} {ts u g j : String} {r : JobRecord}
    {g' j' : String} (h : g' ≠ g) :
    getPath (insertJob d ts u g j r) ts u g' j' = getPath d ts u g' j' := by
  have hgg : ¬ g = g' := fun e => h e.symm
  unfold getPath insertJob insertUM
  rw [dget_dset_self]
  cases hdt : dget d ts with
  | none => simp [dget_dset_self, dget_dset_ne _ g g' _ h, dget, hgg]
  | some um =>
    cases hu : dget um u with
    | none => simp [dget_dset_self, dget_dset_ne _ g g' _ h, hu, dget, hgg]
    | some gm => simp [dget_dset_self, dget_dset_ne _ g g' _ h, hu]

theorem insertAll_cons {d : ResultMap} {ts u j : String} {cpu : Option Int}
    {mem : Option String} {node billing : Option Int} {state : String}
    {gv : String × String} {rest : List (String × String)} :
    insertAll d ts u j cpu mem node billing state (gv :: rest)
      = insertAll
          (insertJob d ts u gv.1 j ⟨safe_int (some gv.2), cpu, mem, node, billing, state⟩)
          ts u j cpu mem node billing state rest := rfl

theorem insertAll_get_ne {typed : List (String × String)} {d : ResultMap}
    {ts u j : String} {cpu : Option Int} {mem : Option String}
    {node billing : Option Int} {state : String} {k : String} (h : k ≠ ts) :
    dget (insertAll d ts u j cpu mem node billing state typed) k = dget d k := by
  induction typed generalizing d with
  | nil => rfl
  | cons gv rest ih =>
    rw [insertAll_cons, ih, insertJob_get_ne h]

theorem insertAll_get_congr {typed : List (String × String)} {d1 d2 : ResultMap}
    {ts u j : String} {cpu : Option Int} {mem : Option String}
    {node billing : Option Int} {state : String} (h : dget d1 ts = dget d2 ts) :
    dget (insertAll d1 ts u j cpu mem node billing state typed) ts
      = dget (insertAll d2 ts u j cpu mem node billing state typed) ts := by
  induction typed generalizing d1 d2 with
  | nil => exact h
  | cons gv rest ih =>
    rw [insertAll_cons, insertAll_cons]
    exact ih (by rw [insertJob_get_self, insertJob_get_self, h])

theorem insertAll_isSome {typed : List (String × String)} {d : ResultMap}
    {ts u j : String} {cpu : Option Int} {mem : Option String}
    {node billing : Option Int} {state : String} {k : String}
    (h : (dget d k).isSome = true) :
    (dget (insertAll d ts u j cpu mem node billing state typed) k).isSome = true := by
  induction typed generalizing d with
  | nil => exact h
  | cons gv rest ih =>
    rw [insertAll_cons]
    by_cases hk : k = ts
    · subst hk
      exact ih (by rw [insertJob_get_self]; rfl)
    · exact ih (by rw [insertJob_get_ne hk]; exact h)

theorem insertAll_getPath_other {typed : List (String × String)} {d : ResultMap}
    {ts u j : String} {cpu : Option Int} {mem : Option String}
    {node billing : Option Int} {state : String} {g j' : String}
    (hg : g ∉ typed.map Prod.fst) :
    getPath (insertAll d ts u j cpu mem node billing state typed) ts u g j'
      = getPath d ts u g j' := by
  induction typed generalizing d with
  | nil => rfl
  | cons gv rest ih =>
    rw [List.map_cons] at hg
    have h1 : g ≠ gv.1 := fun e => hg (by rw [e]; exact List.mem_cons_self _ _)
    have h2 : g ∉ rest.map Prod.fst := fun hm => hg (List.mem_cons_of_mem _ hm)
    rw [insertAll_cons, ih h2, getPath_insertJob_ne_gpu h1]

theorem insertAll_getPath_mem {typed : List (String × String)} {d : ResultMap}
    {ts u j : String} {cpu : Option Int} {mem : Option String}
    {node billing : Option Int} {state : String}
    (hnd : (typed.map Prod.fst).Nodup) :
    ∀ gv ∈ typed,
      getPath (insertAll d ts u j cpu mem node billing state typed) ts u gv.1 j
        = some ⟨safe_int (some gv.2), cpu, mem, node, billing, state⟩ := by
  induction typed generalizing d with
  | nil => intro gv hgv; cases hgv
  | cons gv0 rest ih =>
    intro gv hgv
    rw [List.map_cons, List.nodup_cons] at hnd
    rcases List.mem_cons.mp hgv with heq | hmem
    · subst heq
      rw [insertAll_cons, insertAll_getPath_other hnd.1]
      exact getPath_insertJob_self
    · rw [insertAll_cons]
      exact ih hnd.2 gv hmem

/-!  stepData and stepLine lemmas. -/

theorem stepDecision_none (l : String) : stepDecision none l = none := by
  unfold stepDecision
  dsimp only
  repeat' split
  all_goals rfl

theorem stepDecision_ts {c : String} {l : String} {cmd : InsertCmd}
    (h : stepDecision (some c) l = some cmd) : cmd.ts = c := by
  unfold stepDecision at h
  dsimp only at h
  repeat' split at h
  all_goals try contradiction
  all_goals
    injection h with h2
    rw [← h2]

theorem stepData_none (d : ResultMap) (l : String) : stepData none d l = d := by
  unfold stepData
  rw [stepDecision_none]

theorem stepData_get_ne {c : String} {d : ResultMap} {l : String} {k : String}
    (h : k ≠ c) : dget (stepData (some c) d l) k = dget d k := by
  unfold stepData
  cases hd : stepDecision (some c) l with
  | none => rfl
  | some cmd =>
    exact insertAll_get_ne (by rw [stepDecision_ts hd]; exact h)

theorem stepData_get_congr {k : String} {d1 d2 : ResultMap} {l : String}
    (h : dget d1 k = dget d2 k) :
    dget (stepData (some k) d1 l) k = dget (stepData (some k) d2 l) k := by
  unfold stepData
  cases hd : stepDecision (some k) l with
  | none => exact h
  | some cmd =>
    have hts : cmd.ts = k := stepDecision_ts hd
    subst hts
    exact insertAll_get_congr h

theorem stepData_isSome {cts : Option String} {d : ResultMap} {l : String}
    {k : String} (h : (dget d k).isSome = true) :
    (dget (stepData cts d l) k).isSome = true := by
  unfold stepData
  cases hd : stepDecision cts l with
  | none => exact h
  | some cmd => exact insertAll_isSome h

theorem stepLine_eq_ts {st : ParseState} {l : String} {ts : String}
    (h : is_timestamp_line (rstripNl l) = some ts) :
    stepLine st l = { data := ensure_ts st.data ts, current_ts := some ts } := by
  simp only [stepLine]
  rw [h]

theorem stepLine_eq_notts {st : ParseState} {l : String}
    (h : is_timestamp_line (rstripNl l) = none) :
    stepLine st l
      = { data := stepData st.current_ts st.data (rstripNl l),
          current_ts := st.current_ts } := by
  simp only [stepLine]
  rw [h]

/-!  Lemmas about the fold of the line loop. -/

/-- A step on a line that is not a timestamp line for k, from a state whose
context is not k, neither touches the entry of k nor makes k current. -/
theorem step_frozen {s : ParseState} {l : String} {k : String}
    (h2 : ∀ c, s.current_ts = some c → c ≠ k)
    (h3 : is_timestamp_line (rstripNl l) ≠ some k) :
    dget (stepLine s l).data k = dget s.data k
      ∧ ∀ c, (stepLine s l).current_ts = some c → c ≠ k := by
  cases hts : is_timestamp_line (rstripNl l) with
  | some ts =>
    have hne : ts ≠ k := by intro e; subst e; exact h3 hts
    rw [stepLine_eq_ts hts]
    refine ⟨ensure_ts_get_ne _ _ _ (fun e => hne e.symm), ?_⟩
    intro c hc
    have : some ts = some c := hc
    injection this with e
    subst e
    exact hne
  | none =>
    rw [stepLine_eq_notts hts]
    refine ⟨?_, fun c hc => h2 c hc⟩
    cases hc : s.current_ts with
    | none => rw [stepData_none]
    | some c => exact stepData_get_ne (fun e => (h2 c hc) e.symm)

/-- The fold version of step_frozen. -/
theorem foldl_frozen (lines : List String) : ∀ {s : ParseState} {k : String},
    (∀ c, s.current_ts = some c → c ≠ k) →
    (∀ l ∈ lines, is_timestamp_line (rstripNl l) ≠ some k) →
    dget (List.foldl stepLine s lines).data k = dget s.data k
      ∧ ∀ c, (List.foldl stepLine s lines).current_ts = some c → c ≠ k := by
  induction lines with
  | nil => intro s k h2 _; exact ⟨rfl, h2⟩
  | cons l rest ih =>
    intro s k h2 h3
    rw [List.foldl_cons]
    have hstep := step_frozen h2 (h3 l (List.mem_cons_self _ _))
    have hrest := ih hstep.2 (fun l' hl' => h3 l' (List.mem_cons_of_mem _ hl'))
    exact ⟨hrest.1.trans hstep.1, hrest.2⟩

/-- A step never removes an existing timestamp key. -/
theorem step_isSome {s : ParseState} {l : String} {k : String}
    (h : (dget s.data k).isSome = true) :
    (dget (stepLine s l).data k).isSome = true := by
  cases hts : is_timestamp_line (rstripNl l) with
  | some ts =>
    rw [stepLine_eq_ts hts]
    by_cases he : k = ts
    · subst he
      rw [ensure_ts_get_self]
      rfl
    · rw [ensure_ts_get_ne _ _ _ he]
      exact h
  | none =>
    rw [stepLine_eq_notts hts]
    exact stepData_isSome h

/-- The fold version of step_isSome. -/
theorem foldl_isSome {lines : List String} : ∀ {s : ParseState} {k : String},
    (dget s.data k).isSome = true →
    (dget (List.foldl stepLine s lines).data k).isSome = true := by
  induction lines with
  | nil => intro s k h; exact h
  | cons l rest ih =>
    intro s k h
    rw [List.foldl_cons]
    exact ih (step_isSome h)

/-- Over lines with no timestamp line, two states with context k and equal
entries at k keep equal entries at k. -/
theorem foldl_tail_agree {post : List String} : ∀ {a b : ParseState} {k : String},
    a.current_ts = some k → b.current_ts = some k →
    dget a.data k = dget b.data k →
    (∀ l ∈ post, is_timestamp_line (rstripNl l) = none) →
    dget (List.foldl stepLine a post).data k
      = dget (List.foldl stepLine b post).data k := by
  induction post with
  | nil => intro a b k _ _ h _; exact h
  | cons l rest ih =>
    intro a b k ha hb h hpost
    rw [List.foldl_cons, List.foldl_cons]
    have hts := hpost l (List.mem_cons_self _ _)
    have ha' : (stepLine a l).current_ts = some k := by
      rw [stepLine_eq_notts hts]; exact ha
    have hb' : (stepLine b l).current_ts = some k := by
      rw [stepLine_eq_notts hts]; exact hb
    have h' : dget (stepLine a l).data k = dget (stepLine b l).data k := by
      rw [stepLine_eq_notts hts, stepLine_eq_notts hts]
      show dget (stepData a.current_ts a.data (rstripNl l)) k
        = dget (stepData b.current_ts b.data (rstripNl l)) k
      rw [ha, hb]
      exact stepData_get_congr h
    exact ih ha' hb' h' (fun l' hl' => hpost l' (List.mem_cons_of_mem _ hl'))

/-- Folding lines on which stepLine is the identity changes nothing. -/
theorem foldl_stepLine_id {lines : List String} : ∀ {s : ParseState},
    (∀ l ∈ lines, ∀ st : ParseState, stepLine st l = st) →
    List.foldl stepLine s lines = s := by
  induction lines with
  | nil => intro s _; rfl
  | cons l rest ih =>
    intro s h
    rw [List.foldl_cons, h l (List.mem_cons_self _ _) s]
    exact ih (fun l' hl' => h l' (List.mem_cons_of_mem _ hl'))

/-- Before the first timestamp line the state stays initial: every such
line is a blank, a header, an unmatched line, or a record without context,
and all of them leave the empty state unchanged. -/
theorem foldl_initial {pre : List String}
    (h : ∀ l ∈ pre, is_timestamp_line (rstripNl l) = none) :
    List.foldl stepLine { data := [], current_ts := none } pre
      = { data := [], current_ts := none } := by
  induction pre with
  | nil => rfl
  | cons l rest ih =>
    rw [List.foldl_cons]
    have hstep : stepLine { data := [], current_ts := none } l
        = { data := [], current_ts := none } := by
      rw [stepLine_eq_notts (h l (List.mem_cons_self _ _))]
      show ({ data := stepData none [] (rstripNl l), current_ts := none } : ParseState) = _
      rw [stepData_none]
    rw [hstep]
    exact ih (fun l' hl' => h l' (List.mem_cons_of_mem _ hl'))

/-!  Lemmas about the backward timestamp scan. -/

theorem lastTsSuffix_none {lines : List String}
    (h : ∀ l ∈ lines, is_timestamp_line l = none) : lastTsSuffix lines = none := by
  induction lines with
  | nil => rfl
  | cons l rest ih =>
    simp only [lastTsSuffix]
    rw [ih (fun l' hl' => h l' (List.mem_cons_of_mem _ hl')),
      h l (List.mem_cons_self _ _)]
    rfl

theorem lastTsSuffix_concat {pre post : List String} {tsl : String} {ts : String}
    (hts : is_timestamp_line tsl = some ts)
    (hpost : ∀ l ∈ post, is_timestamp_line l = none) :
    lastTsSuffix (pre ++ tsl :: post) = some (tsl :: post) := by
  induction pre with
  | nil =>
    rw [List.nil_append]
    simp only [lastTsSuffix]
    rw [lastTsSuffix_none hpost, hts]
    rfl
  | cons p pre' ih =>
    rw [List.cons_append]
    simp only [lastTsSuffix]
    rw [ih]

/-!  Auxiliary facts for the claim proofs. -/

theorem takeWhile_append_of_all {p : Char → Bool} :
    ∀ (l m : List Char), (∀ c ∈ l, p c = true) →
      List.takeWhile p (l ++ m) = l ++ List.takeWhile p m := by
  intro l m h
  induction l with
  | nil => rfl
  | cons c rest ih =>
    rw [List.cons_append, List.takeWhile_cons_of_pos (h c (by simp)),
      ih (fun x hx => h x (by simp [hx])), List.cons_append]

theorem takeWhile_eq_nil_of_head {p : Char → Bool} {l : List Char}
    (h : ∀ c ∈ l.head?, p c = false) : List.takeWhile p l = [] := by
  cases l with
  | nil => rfl
  | cons c rest =>
    exact List.takeWhile_cons_of_neg (by rw [h c rfl]; exact Bool.false_ne_true)

/-- The head of dropWhile p l does not satisfy p. -/
theorem head_dropWhile_not {p : Char → Bool} :
    ∀ (l : List Char) (c : Char) (t : List Char),
      List.dropWhile p l = c :: t → p c = false := by
  intro l
  induction l with
  | nil => intro c t h; cases h
  | cons a rest ih =>
    intro c t h
    by_cases hp : p a = true
    · rw [List.dropWhile_cons_of_pos hp] at h
      exact ih c t h
    · rw [List.dropWhile_cons_of_neg hp] at h
      cases h
      exact Bool.not_eq_true _ |>.mp hp

/-- A line accepted by the record regex strips to a string headed by a
digit (and in particular a nonblank one not starting with JOBID). -/
theorem matchRecordL_shape {cs : List Char} {r : String × String × String × String}
    (h : matchRecordL cs = some r) :
    ∃ d t, pyStripL cs = d :: t ∧ d.isDigit = true := by
  unfold matchRecordL at h
  dsimp only at h
  -- the jobid group is nonempty, so the left-stripped line begins with a digit
  have hjd : ((cs.dropWhile pyIsSpace).takeWhile Char.isDigit).isEmpty = false := by
    by_contra hne
    rw [Bool.not_eq_false] at hne
    rw [if_pos hne] at h
    cases h
  cases hcs1 : cs.dropWhile pyIsSpace with
  | nil => rw [hcs1] at hjd; cases hjd
  | cons d t0 =>
    have hd : d.isDigit = true := by
      by_contra hdd
      rw [hcs1, List.takeWhile_cons_of_neg hdd] at hjd
      cases hjd
    have hdsp : pyIsSpace d = false := head_dropWhile_not cs d t0 hcs1
    refine ⟨d, ((List.dropWhile pyIsSpace t0.reverse).reverse), ?_, hd⟩
    have hdecomp : cs = cs.takeWhile pyIsSpace ++ (d :: t0) := by
      rw [← hcs1, List.takeWhile_append_dropWhile]
    unfold pyStripL
    rw [hdecomp]
    rw [show (cs.takeWhile pyIsSpace ++ d :: t0).reverse
        = t0.reverse ++ d :: (cs.takeWhile pyIsSpace).reverse from by
      rw [List.reverse_append, List.reverse_cons, List.append_assoc]; rfl]
    rw [dropWhile_append_cons hdsp]
    rw [List.reverse_append, List.reverse_cons, List.reverse_reverse]
    rw [List.append_assoc]
    rw [dropWhile_append_of_all _ _ (fun c hc => List.mem_takeWhile_imp hc)]
    rw [List.singleton_append]
    rw [List.dropWhile_cons_of_neg (by simp [hdsp])]

/-- A digit head rules out the JOBID header prefix. -/
theorem not_jobid_of_digit {d : Char} {t : List Char} (hd : d.isDigit = true) :
    List.isPrefixOf (("JOBID").toList) (d :: t) = false := by
  have hne : ('J' == d) = false := by
    cases hbe : ('J' == d) with
    | false => rfl
    | true =>
      have e := eq_of_beq hbe
      rw [← e] at hd
      exact absurd hd (by decide)
  show ('J' == d && List.isPrefixOf (("OBID").toList) t) = false
  rw [hne]
  rfl

/-- ensure_nested is the identity when the key is already present. -/
theorem ensure_ts_present {d : ResultMap} {ts : String} {um : UserMap}
    (h : dget d ts = some um) : ensure_ts d ts = d := by
  unfold ensure_ts
  rw [h]

/-- utf8Len agrees with the byte count of utf8ByteSize. -/
theorem utf8Len_eq_go : ∀ cs : List Char, utf8Len cs = String.utf8ByteSize.go cs := by
  intro cs
  induction cs with
  | nil => rfl
  | cons c rest ih =>
    show c.utf8Size + utf8Len rest = String.utf8ByteSize.go (c :: rest)
    rw [show String.utf8ByteSize.go (c :: rest)
        = String.utf8ByteSize.go rest + c.utf8Size from rfl, ih, Nat.add_comm]

/-- A window at least as large as the file holds the whole file. -/
theorem tailWindow_of_le {content : String} {t : Nat}
    (h : content.utf8ByteSize ≤ t) : tailWindow content t = content := by
  unfold tailWindow
  cases content with
  | mk l =>
    cases l with
    | nil => rfl
    | cons c cs =>
      show (tailWindowL t (c :: cs)).asString = _
      unfold tailWindowL
      rw [if_pos (by rw [utf8Len_eq_go]; exact h)]
      rfl

/-- Only the empty string has zero UTF-8 bytes. -/
theorem eq_empty_of_utf8ByteSize_eq_zero {s : String}
    (h : s.utf8ByteSize = 0) : s = ("") := by
  cases s with
  | mk l =>
    cases l with
    | nil => rfl
    | cons c cs =>
      exfalso
      have hgo : String.utf8ByteSize ⟨c :: cs⟩
          = String.utf8ByteSize.go cs + c.utf8Size := rfl
      rw [hgo] at h
      have := Char.utf8Size_pos c
      omega

/-- The TRES loop equals the fold of the kept pairs, for any start dict. -/
theorem tres_fold_eq : ∀ (parts : List String) (d : Dict String),
    parts.foldl tresStep d
      = (parts.filterMap pairOfPart).foldl (fun d kv => dset d kv.1 kv.2) d := by
  intro parts
  induction parts with
  | nil => intro d; rfl
  | cons part rest ih =>
    intro d
    rw [List.foldl_cons, List.filterMap_cons]
    by_cases hc : (pyStripL part.toList).contains '=' = true
    · have hne : (pyStripL part.toList).isEmpty = false := by
        cases hp : pyStripL part.toList with
        | nil => rw [hp] at hc; cases hc
        | cons a b => rfl
      have h1 : tresStep d part
          = dset d (pyStripL (splitOnce (pyStripL part.toList) '=').1).asString
              (pyStripL (splitOnce (pyStripL part.toList) '=').2).asString := by
        unfold tresStep
        dsimp only
        rw [hne, hc]
        rfl
      have h2 : pairOfPart part
          = some ((pyStripL (splitOnce (pyStripL part.toList) '=').1).asString,
              (pyStripL (splitOnce (pyStripL part.toList) '=').2).asString) := by
        unfold pairOfPart
        dsimp only
        rw [hc]
        rfl
      rw [h1, h2, ih]
      rfl
    · have hcf : (pyStripL part.toList).contains '=' = false := by
        cases hcc : (pyStripL part.toList).contains '=' with
        | false => rfl
        | true => exact absurd hcc hc
      have h1 : tresStep d part = d := by
        unfold tresStep
        dsimp only
        rw [hcf]
        cases he : (pyStripL part.toList).isEmpty with
        | false => rfl
        | true => rfl
      have h2 : pairOfPart part = none := by
        unfold pairOfPart
        dsimp only
        rw [hcf]
        rfl
      rw [h1, h2, ih]

/-!  The claims. -/

/-- C1: parsing the input made of the timestamp line
Thu Dec 18 04:37:01 2025, the header line JOBID USER TRES_ALLOC STATE and
the record line
61040 matbwyler cpu=32,mem=64G,node=1,billing=32,gres/gpu=4,gres/gpu:a40=4 RUNNING
produces exactly the mapping with gpu_number 4, cpu 32, mem the string 64G,
node 1, billing 32 and state RUNNING at
[Thu Dec 18 04:37:01 2025][matbwyler][a40][61040]: gpu_number, cpu, node
and billing are integers, mem stays a string. -/
theorem claim1_example_end_to_end :
    parse_usage_file
        ("Thu Dec 18 04:37:01 2025\nJOBID USER TRES_ALLOC STATE\n61040 matbwyler cpu=32,mem=64G,node=1,billing=32,gres/gpu=4,gres/gpu:a40=4 RUNNING\n")
      = [(("Thu Dec 18 04:37:01 2025"),
          [(("matbwyler"),
            [(("a40"),
              [(("61040"),
                { gpu_number := some 4, cpu := some 32, mem := some ("64G"),
                  node := some 1, billing := some 32,
                  state := ("RUNNING") })])])])] := by
  rfl

/-- C3 counterexample: the comma piece a=b=c contains two = signs, yet
parse_tres_alloc keeps it, splitting at the first =; the claim that such a
piece produces no key/value pair is false. -/
theorem claim3_two_equals_counterexample :
    parse_tres_alloc ("a=b=c") = [(("a"), ("b=c"))]
      ∧ parse_tres_alloc ("a=b=c") ≠ [] := by
  exact ⟨rfl, by decide⟩

/-- C3 (amended): the resource string is split on commas; a piece is kept
exactly when it contains at least one = sign (not exactly one: pieces with
several = signs are kept too); every kept piece is split once at its first
= into a key and value, both trimmed; pieces with no = are discarded.  The
parsed dict is the dict of exactly these pairs. -/
theorem claim3_tres_split_amended (tres : String) :
    parse_tres_alloc tres = dictOfPairs (tres_pairs tres) := by
  unfold parse_tres_alloc dictOfPairs tres_pairs
  exact tres_fold_eq _ []

/-- C9: in tail-only mode an input file of size zero bytes returns the
empty mapping (through the early size guard, before any window scan or
fallback). -/
theorem claim9_empty_file (content : String) (h : content.utf8ByteSize = 0) :
    parse_last_usage_file content = [] := by
  unfold parse_last_usage_file
  rw [h]
  rfl

/-- Witness for C9 at the empty file. -/
theorem claim9_empty_file_witness :
    ("").utf8ByteSize = 0 ∧ parse_last_usage_file ("") = [] :=
  ⟨rfl, claim9_empty_file ("") rfl⟩

/-- C4: a structurally valid record line whose parsed resource string has
no typed-GPU key gres/gpu:<type> leaves the parser state exactly as it
was: no entry is created anywhere. -/
theorem claim4_no_typed_gpu_dropped (st : ParseState) (l : String)
    (jobid user tres state0 : String)
    (h1 : is_timestamp_line (rstripNl l) = none)
    (h2 : matchRecordLine (rstripNl l) = some (jobid, user, tres, state0))
    (h3 : typed_gpu_entries (parse_tres_alloc (pyStrip tres)) = []) :
    stepLine st l = st := by
  rw [stepLine_eq_notts h1]
  have hdec : stepDecision st.current_ts (rstripNl l) = none := by
    unfold stepDecision
    dsimp only
    rw [show matchRecordLine (rstripNl l) = some (jobid, user, tres, state0) from h2]
    dsimp only
    cases st.current_ts with
    | none =>
      split
      · rfl
      · split
        · rfl
        · rfl
    | some c =>
      dsimp only
      rw [h3]
      split
      · rfl
      · split
        · rfl
        · split
          · rfl
          · rfl
  have hd : stepData st.current_ts st.data (rstripNl l) = st.data := by
    unfold stepData
    rw [hdec]
  rw [hd]

/-- Witness for C4: a record whose only GPU key is the untyped gres/gpu. -/
theorem claim4_no_typed_gpu_dropped_witness :
    is_timestamp_line (rstripNl ("61040 matbwyler cpu=32,gres/gpu=4 RUNNING")) = none
    ∧ matchRecordLine (rstripNl ("61040 matbwyler cpu=32,gres/gpu=4 RUNNING"))
        = some (("61040"), ("matbwyler"), ("cpu=32,gres/gpu=4"), ("RUNNING"))
    ∧ typed_gpu_entries (parse_tres_alloc (pyStrip ("cpu=32,gres/gpu=4"))) = []
    ∧ stepLine { data := [], current_ts := some ("Thu Dec 18 04:37:01 2025") }
        ("61040 matbwyler cpu=32,gres/gpu=4 RUNNING")
      = { data := [], current_ts := some ("Thu Dec 18 04:37:01 2025") } :=
  ⟨rfl, rfl, rfl,
    claim4_no_typed_gpu_dropped _ _ _ _ _ _ rfl rfl rfl⟩

/-- C7: a record line (one that matches the record pattern) appearing
while no timestamp line has been seen yet contributes nothing: the parse
of the lines with it equals the parse of the lines without it, with no
error raised (the parser is a total function). -/
theorem claim7_record_before_timestamp (pre rest : List String) (l : String)
    (jobid user tres state0 : String)
    (hpre : ∀ p ∈ pre, is_timestamp_line (rstripNl p) = none)
    (h1 : is_timestamp_line (rstripNl l) = none)
    (h2 : matchRecordLine (rstripNl l) = some (jobid, user, tres, state0)) :
    parse_usage_lines (pre ++ l :: rest) = parse_usage_lines (pre ++ rest) := by
  unfold parse_usage_lines parseLinesState
  rw [List.foldl_append, List.foldl_append, foldl_initial hpre, List.foldl_cons]
  have hstep : stepLine { data := [], current_ts := none } l
      = { data := [], current_ts := none } := by
    rw [stepLine_eq_notts h1]
    show ({ data := stepData none [] (rstripNl l), current_ts := none } : ParseState) = _
    rw [stepData_none]
  rw [hstep]

/-- Witness for C7: a record line between a header and a timestamp block. -/
theorem claim7_record_before_timestamp_witness :
    (∀ p ∈ [("JOBID USER TRES_ALLOC STATE")], is_timestamp_line (rstripNl p) = none)
    ∧ is_timestamp_line (rstripNl ("61040 matbwyler gres/gpu:a40=4 RUNNING")) = none
    ∧ matchRecordLine (rstripNl ("61040 matbwyler gres/gpu:a40=4 RUNNING"))
        = some (("61040"), ("matbwyler"), ("gres/gpu:a40=4"), ("RUNNING"))
    ∧ parse_usage_lines
        ([("JOBID USER TRES_ALLOC STATE")] ++ ("61040 matbwyler gres/gpu:a40=4 RUNNING") :: [("Thu Dec 18 04:37:01 2025")])
      = parse_usage_lines ([("JOBID USER TRES_ALLOC STATE")] ++ [("Thu Dec 18 04:37:01 2025")]) := by
  refine ⟨?hp, rfl, rfl, ?_⟩
  case hp =>
    intro p hp
    rw [List.mem_singleton] at hp
    subst hp
    rfl
  exact claim7_record_before_timestamp _ _ _ _ _ _ _
    (by intro p hp; rw [List.mem_singleton] at hp; subst hp; rfl) rfl rfl

/-- C10: when the same timestamp string occurs on a second timestamp line,
the parser neither resets nor clears the block: the structure is left
untouched (so everything inserted under that timestamp remains) and the
timestamp becomes current again, so following records merge into the same
block under the same key. -/
theorem claim10_duplicate_timestamp_merges (pre more : List String)
    (tsl ts : String) (um : UserMap)
    (h1 : is_timestamp_line (rstripNl tsl) = some ts)
    (h2 : dget (parseLinesState pre).data ts = some um) :
    parseLinesState (pre ++ tsl :: more)
      = List.foldl stepLine
          { data := (parseLinesState pre).data, current_ts := some ts } more := by
  unfold parseLinesState
  rw [List.foldl_append, List.foldl_cons, stepLine_eq_ts h1]
  unfold parseLinesState at h2
  rw [ensure_ts_present h2]

/-- Witness for C10: the same timestamp heads two blocks; the record of
the first block survives and the later record joins it. -/
theorem claim10_duplicate_timestamp_merges_witness :
    is_timestamp_line (rstripNl ("Thu Dec 18 04:37:01 2025"))
        = some ("Thu Dec 18 04:37:01 2025")
    ∧ dget (parseLinesState
          [("Thu Dec 18 04:37:01 2025"), ("1 u gres/gpu:a40=1 RUNNING")]).data
        ("Thu Dec 18 04:37:01 2025")
      = some [(("u"), [(("a40"),
          [(("1"), { gpu_number := some 1, cpu := none, mem := none,
                     node := none, billing := none, state := ("RUNNING") })])])]
    ∧ parseLinesState
        ([("Thu Dec 18 04:37:01 2025"), ("1 u gres/gpu:a40=1 RUNNING")]
          ++ ("Thu Dec 18 04:37:01 2025") :: [("2 u gres/gpu:a40=1 RUNNING")])
      = List.foldl stepLine
          { data := (parseLinesState
              [("Thu Dec 18 04:37:01 2025"), ("1 u gres/gpu:a40=1 RUNNING")]).data,
            current_ts := some ("Thu Dec 18 04:37:01 2025") }
          [("2 u gres/gpu:a40=1 RUNNING")] :=
  ⟨rfl, rfl, claim10_duplicate_timestamp_merges _ _ _ _ _ rfl rfl⟩

/-- C8: numeric coercion on any string value: a string int() accepts
yields its integer value; otherwise a string starting with a digit run
followed by a non-digit (or the end) yields the value of that leading run;
and a string with no leading digit yields None, with no error raised. -/
theorem claim8_safe_int_coercion (s : String) :
    (∀ n : Int, pyIntOfString s = some n → safe_int (some s) = some n)
    ∧ (pyIntOfString s = none →
        ∀ ds rest : List Char, s.toList = ds ++ rest → ds ≠ [] →
          (∀ c ∈ ds, c.isDigit = true) →
          (∀ c ∈ rest.head?, c.isDigit = false) →
          safe_int (some s) = some (Int.ofNat (digitsVal ds)))
    ∧ (pyIntOfString s = none →
        (∀ c ∈ s.toList.head?, c.isDigit = false) → safe_int (some s) = none) := by
  refine ⟨?_, ?_, ?_⟩
  · intro n h
    unfold safe_int
    dsimp only
    rw [h]
  · intro h ds rest hsplit hne hds hrest
    unfold safe_int
    dsimp only
    rw [h]
    dsimp only
    have htake : s.toList.takeWhile Char.isDigit = ds := by
      rw [hsplit, takeWhile_append_of_all _ _ hds,
        takeWhile_eq_nil_of_head hrest, List.append_nil]
    rw [htake]
    cases ds with
    | nil => exact absurd rfl hne
    | cons a b => rfl
  · intro h hhead
    unfold safe_int
    dsimp only
    rw [h]
    dsimp only
    rw [takeWhile_eq_nil_of_head hhead]
    rfl

/-- Witness for C8 at the values 4x and abc named by the claim. -/
theorem claim8_safe_int_coercion_witness :
    safe_int (some ("4x")) = some 4 ∧ safe_int (some ("abc")) = none :=
  ⟨(claim8_safe_int_coercion ("4x")).2.1 rfl [('4')] [('x')] rfl
      (by decide) (by decide)
      (by intro c hc; injection hc with e; subst e; rfl),
    (claim8_safe_int_coercion ("abc")).2.2 rfl
      (by intro c hc; injection hc with e; subst e; rfl)⟩

/-- C5: a retained record declaring distinct typed GPU keys gets exactly
one job record per declared type: for every typed pair, the entry at
[current_ts][user][type][jobid] holds that type's gpu_number together with
the shared cpu, mem, node, billing and state values, and the entries of
all types the record does not declare are untouched. -/
theorem claim5_one_entry_per_gpu_type (st : ParseState) (l : String)
    (c jobid user tres state0 : String)
    (h1 : is_timestamp_line (rstripNl l) = none)
    (h2 : matchRecordLine (rstripNl l) = some (jobid, user, tres, state0))
    (hc : st.current_ts = some c) (hc2 : c.isEmpty = false)
    (hnd : ((typed_gpu_entries (parse_tres_alloc (pyStrip tres))).map Prod.fst).Nodup) :
    (∀ gv ∈ typed_gpu_entries (parse_tres_alloc (pyStrip tres)),
       getPath (stepLine st l).data c user gv.1 jobid
         = some { gpu_number := safe_int (some gv.2),
                  cpu := safe_int (dget (parse_tres_alloc (pyStrip tres)) ("cpu")),
                  mem := dget (parse_tres_alloc (pyStrip tres)) ("mem"),
                  node := safe_int (dget (parse_tres_alloc (pyStrip tres)) ("node")),
                  billing := safe_int (dget (parse_tres_alloc (pyStrip tres)) ("billing")),
                  state := pyStrip state0 })
    ∧ (∀ g, g ∉ (typed_gpu_entries (parse_tres_alloc (pyStrip tres))).map Prod.fst →
         getPath (stepLine st l).data c user g jobid
           = getPath st.data c user g jobid) := by
  obtain ⟨d, t, hstrip, hd⟩ :=
    matchRecordL_shape (show matchRecordL (rstripNl l).toList = some _ from h2)
  have hdata : (stepLine st l).data = stepData (some c) st.data (rstripNl l) := by
    rw [stepLine_eq_notts h1]
    dsimp only
    rw [hc]
  have hdec : stepDecision (some c) (rstripNl l)
      = (if (typed_gpu_entries (parse_tres_alloc (pyStrip tres))).isEmpty then none
         else some
           { ts := c, user := user, jobid := jobid,
             cpu := safe_int (dget (parse_tres_alloc (pyStrip tres)) ("cpu")),
             mem := dget (parse_tres_alloc (pyStrip tres)) ("mem"),
             node := safe_int (dget (parse_tres_alloc (pyStrip tres)) ("node")),
             billing := safe_int (dget (parse_tres_alloc (pyStrip tres)) ("billing")),
             state := pyStrip state0,
             typed := typed_gpu_entries (parse_tres_alloc (pyStrip tres)) }) := by
    unfold stepDecision
    dsimp only
    rw [show matchRecordLine (rstripNl l) = some (jobid, user, tres, state0) from h2]
    dsimp only
    rw [hstrip, show (d :: t).isEmpty = false from rfl, not_jobid_of_digit hd, hc2]
    simp only [Bool.false_eq_true, if_false]
  rw [hdata]
  cases hTE : (typed_gpu_entries (parse_tres_alloc (pyStrip tres))).isEmpty with
  | true =>
    have hTnil : typed_gpu_entries (parse_tres_alloc (pyStrip tres)) = [] :=
      List.isEmpty_iff.mp hTE
    have hstep : stepData (some c) st.data (rstripNl l) = st.data := by
      unfold stepData
      rw [hdec, hTE]
      rfl
    constructor
    · intro gv hgv
      rw [hTnil] at hgv
      cases hgv
    · intro g _
      rw [hstep]
  | false =>
    have hstep : stepData (some c) st.data (rstripNl l)
        = insertAll st.data c user jobid
            (safe_int (dget (parse_tres_alloc (pyStrip tres)) ("cpu")))
            (dget (parse_tres_alloc (pyStrip tres)) ("mem"))
            (safe_int (dget (parse_tres_alloc (pyStrip tres)) ("node")))
            (safe_int (dget (parse_tres_alloc (pyStrip tres)) ("billing")))
            (pyStrip state0)
            (typed_gpu_entries (parse_tres_alloc (pyStrip tres))) := by
      unfold stepData
      rw [hdec, hTE]
      simp only [Bool.false_eq_true, if_false]
    constructor
    · intro gv hgv
      rw [hstep]
      exact insertAll_getPath_mem hnd gv hgv
    · intro g hg
      rw [hstep]
      exact insertAll_getPath_other hg

/-- Witness for C5: a record declaring the two types a40 and a100. -/
theorem claim5_one_entry_per_gpu_type_witness :
    ((typed_gpu_entries (parse_tres_alloc
        (pyStrip ("cpu=8,gres/gpu:a40=2,gres/gpu:a100=1")))).map Prod.fst).Nodup
    ∧ getPath (stepLine
          { data := [], current_ts := some ("Thu Dec 18 04:37:01 2025") }
          ("7 alice cpu=8,gres/gpu:a40=2,gres/gpu:a100=1 RUNNING")).data
        ("Thu Dec 18 04:37:01 2025") ("alice") ("a40") ("7")
      = some { gpu_number := some 2, cpu := some 8, mem := none, node := none,
               billing := none, state := ("RUNNING") }
    ∧ getPath (stepLine
          { data := [], current_ts := some ("Thu Dec 18 04:37:01 2025") }
          ("7 alice cpu=8,gres/gpu:a40=2,gres/gpu:a100=1 RUNNING")).data
        ("Thu Dec 18 04:37:01 2025") ("alice") ("a100") ("7")
      = some { gpu_number := some 1, cpu := some 8, mem := none, node := none,
               billing := none, state := ("RUNNING") } :=
  ⟨by decide,
    (claim5_one_entry_per_gpu_type
        { data := [], current_ts := some ("Thu Dec 18 04:37:01 2025") }
        ("7 alice cpu=8,gres/gpu:a40=2,gres/gpu:a100=1 RUNNING")
        ("Thu Dec 18 04:37:01 2025") ("7") ("alice")
        ("cpu=8,gres/gpu:a40=2,gres/gpu:a100=1") ("RUNNING")
        rfl rfl rfl rfl (by decide)).1 (("a40"), ("2")) (by decide),
    (claim5_one_entry_per_gpu_type
        { data := [], current_ts := some ("Thu Dec 18 04:37:01 2025") }
        ("7 alice cpu=8,gres/gpu:a40=2,gres/gpu:a100=1 RUNNING")
        ("Thu Dec 18 04:37:01 2025") ("7") ("alice")
        ("cpu=8,gres/gpu:a40=2,gres/gpu:a100=1") ("RUNNING")
        rfl rfl rfl rfl (by decide)).1 (("a100"), ("1")) (by decide)⟩

/-- C6 counterexample: the third line of the input below is a recognized
Timestamp line followed by zero qualifying GPU records (it is the last
line), yet its key maps to the nonempty block merged from the first
occurrence of the same timestamp string, not to the empty mapping. -/
theorem claim6_duplicate_block_counterexample :
    is_timestamp_line
        (rstripNl ("Thu Dec 18 04:37:01 2025")) = some ("Thu Dec 18 04:37:01 2025")
    ∧ dget (parse_usage_lines
          [("Thu Dec 18 04:37:01 2025"), ("1 u gres/gpu:a40=1 RUNNING"),
           ("Thu Dec 18 04:37:01 2025")])
        ("Thu Dec 18 04:37:01 2025")
      = some [(("u"), [(("a40"),
          [(("1"), { gpu_number := some 1, cpu := none, mem := none,
                     node := none, billing := none, state := ("RUNNING") })])])]
    ∧ dget (parse_usage_lines
          [("Thu Dec 18 04:37:01 2025"), ("1 u gres/gpu:a40=1 RUNNING"),
           ("Thu Dec 18 04:37:01 2025")])
        ("Thu Dec 18 04:37:01 2025") ≠ some [] :=
  ⟨rfl, rfl, by decide⟩

/-- C6 (amended): every timestamp line the parser recognizes leaves a key
for its trimmed string in the result (first part); and a block with no
qualifying records before the next timestamp line or the end of input —
provided its timestamp string heads no other block of the input — appears
in the output as that key with the empty mapping as its value (second
part).  Without that proviso the second part is false: records of another
block with the same timestamp string merge under the same key. -/
theorem claim6_timestamp_key_created :
    (∀ (lines : List String) (l ts : String), l ∈ lines →
        is_timestamp_line (rstripNl l) = some ts →
        (dget (parse_usage_lines lines) ts).isSome = true)
    ∧ (∀ (pre mid rest : List String) (tsl ts : String),
        is_timestamp_line (rstripNl tsl) = some ts →
        (∀ l ∈ pre, is_timestamp_line (rstripNl l) ≠ some ts) →
        (∀ l ∈ mid, ∀ st : ParseState, stepLine st l = st) →
        (rest = [] ∨ ∃ r rest2, rest = r :: rest2
            ∧ (is_timestamp_line (rstripNl r)).isSome = true) →
        (∀ l ∈ rest, is_timestamp_line (rstripNl l) ≠ some ts) →
        dget (parse_usage_lines (pre ++ tsl :: (mid ++ rest))) ts = some []) := by
  constructor
  · intro lines l ts hmem hts
    obtain ⟨s, t, rfl⟩ := List.append_of_mem hmem
    unfold parse_usage_lines parseLinesState
    rw [List.foldl_append, List.foldl_cons, stepLine_eq_ts hts]
    apply foldl_isSome
    show (dget (ensure_ts _ ts) ts).isSome = true
    rw [ensure_ts_get_self]
    rfl
  · intro pre mid rest tsl ts htsl hpre hmid hrest1 hrest2
    unfold parse_usage_lines parseLinesState
    rw [List.foldl_append, List.foldl_cons]
    have h0 : ∀ c,
        (({ data := [], current_ts := none } : ParseState)).current_ts = some c →
          c ≠ ts := by
      intro c hc
      exact absurd hc (by simp)
    have hfr := foldl_frozen pre h0 hpre
    rw [stepLine_eq_ts htsl, List.foldl_append, foldl_stepLine_id hmid]
    have hS2 : dget (ensure_ts
        (List.foldl stepLine { data := [], current_ts := none } pre).data ts) ts
        = some [] := by
      rw [ensure_ts_get_self, hfr.1]
      rfl
    rcases hrest1 with rfl | ⟨r, rest2, rfl, hr⟩
    · exact hS2
    · rw [List.foldl_cons]
      obtain ⟨ts2, hts2⟩ := Option.isSome_iff_exists.mp hr
      have hne : ts2 ≠ ts := by
        intro e
        subst e
        exact hrest2 r (List.mem_cons_self _ _) hts2
      rw [stepLine_eq_ts hts2]
      have h02 : ∀ c2,
          (({ data := ensure_ts (ensure_ts
                (List.foldl stepLine { data := [], current_ts := none } pre).data ts)
                ts2,
              current_ts := some ts2 } : ParseState)).current_ts = some c2 →
            c2 ≠ ts := by
        intro c2 hc2
        have he : some ts2 = some c2 := hc2
        injection he with e
        subst e
        exact hne
      have hfr2 := foldl_frozen rest2 h02
        (fun l hl => hrest2 l (List.mem_cons_of_mem _ hl))
      rw [hfr2.1]
      show dget (ensure_ts _ ts2) ts = some []
      rw [ensure_ts_get_ne _ _ _ (Ne.symm hne)]
      exact hS2

/-- Witness for C6: a lone timestamp line, and a block containing only a
header line between its timestamp and the end of input. -/
theorem claim6_timestamp_key_created_witness :
    (dget (parse_usage_lines [("Thu Dec 18 04:37:01 2025")])
        ("Thu Dec 18 04:37:01 2025")).isSome = true
    ∧ dget (parse_usage_lines
          ([] ++ ("Thu Dec 18 04:37:01 2025")
            :: ([("JOBID USER TRES_ALLOC STATE")] ++ [])))
        ("Thu Dec 18 04:37:01 2025") = some [] := by
  constructor
  · exact claim6_timestamp_key_created.1 _ ("Thu Dec 18 04:37:01 2025") _
      (List.mem_singleton.mpr rfl) rfl
  · exact claim6_timestamp_key_created.2 [] [("JOBID USER TRES_ALLOC STATE")] []
      ("Thu Dec 18 04:37:01 2025") ("Thu Dec 18 04:37:01 2025") rfl
      (by intro l hl; cases hl)
      (by
        intro l hl st
        rw [List.mem_singleton] at hl
        subst hl
        rfl)
      (Or.inl rfl)
      (by intro l hl; cases hl)

/-- Core of the amended C2, at the line level: when the last timestamp
line's string heads no earlier block, parsing from that line alone and
parsing all the lines agree at its key. -/
theorem parse_lines_last_block {pre post : List String} {tsl ts : String}
    (hts : is_timestamp_line tsl = some ts)
    (hpost : ∀ l ∈ post, is_timestamp_line l = none)
    (hpre : ∀ l ∈ pre, is_timestamp_line l ≠ some ts) :
    dget (parse_usage_lines (tsl :: post)) ts
      = dget (parse_usage_lines (pre ++ tsl :: post)) ts := by
  unfold parse_usage_lines parseLinesState
  rw [List.foldl_append, List.foldl_cons, List.foldl_cons]
  have htsr : is_timestamp_line (rstripNl tsl) = some ts := by
    rw [is_ts_rstripNl]
    exact hts
  rw [stepLine_eq_ts htsr, stepLine_eq_ts htsr]
  have h0 : ∀ c,
      (({ data := [], current_ts := none } : ParseState)).current_ts = some c →
        c ≠ ts := by
    intro c hc
    exact absurd hc (by simp)
  have hfr := foldl_frozen pre h0
    (fun l hl => by rw [is_ts_rstripNl]; exact hpre l hl)
  apply foldl_tail_agree rfl rfl ?_
    (fun l hl => by rw [is_ts_rstripNl]; exact hpost l hl)
  show dget (ensure_ts [] ts) ts = dget (ensure_ts _ ts) ts
  rw [ensure_ts_get_self, ensure_ts_get_self, hfr.1]

/-- C2 counterexample, two independent failures of the claim as stated.
First, a file whose two blocks carry the same timestamp string: the full
parse merges the records of both blocks under that key while the tail
parse sees only the last block.  Second, a single-block file with a
vertical tab inside its record line: text-mode reading keeps the line
whole, so the full parse records state XXX (the vertical tab is regex
whitespace), while the tail path's splitlines cuts the line at the
vertical tab and records state RUNNING. -/
theorem claim2_tail_full_disagree_counterexample :
    (dget (parse_last_usage_file
        ("Thu Dec 18 04:37:01 2025\n1 u gres/gpu:a40=1 RUNNING\nThu Dec 18 04:37:01 2025\n2 u gres/gpu:a40=1 RUNNING"))
        ("Thu Dec 18 04:37:01 2025")
      ≠ dget (parse_usage_file
        ("Thu Dec 18 04:37:01 2025\n1 u gres/gpu:a40=1 RUNNING\nThu Dec 18 04:37:01 2025\n2 u gres/gpu:a40=1 RUNNING"))
        ("Thu Dec 18 04:37:01 2025"))
    ∧ (dget (parse_last_usage_file
        ("Thu Dec 18 04:37:01 2025\n1 u gres/gpu:a40=1 RUNNING\x0bXXX"))
        ("Thu Dec 18 04:37:01 2025")
      ≠ dget (parse_usage_file
        ("Thu Dec 18 04:37:01 2025\n1 u gres/gpu:a40=1 RUNNING\x0bXXX"))
        ("Thu Dec 18 04:37:01 2025")) := by
  exact ⟨by decide, by decide⟩

/-- C2 (amended): for every input file that (i) fits within the first
4MB tail window, (ii) splits into the same line sequence under text-mode
reading and under splitlines — no characters that only splitlines treats
as line breaks occur inside its lines — and (iii) contains at least one
timestamp line, the last of which carries a string heading no earlier
block, the tail-only parse and the full parse produce identical records
under the last timestamp key.  The split hypotheses state condition (ii)
together with the decomposition at the last timestamp line: lines
preceding it, that line, and trailing non-timestamp lines. -/
theorem claim2_last_block_agreement (content : String) (pre post : List String)
    (tsl ts : String)
    (hsize : content.utf8ByteSize ≤ 4 * 1024 * 1024)
    (hA : pySplitlines content = pre ++ tsl :: post)
    (hB : fileLines content = pre ++ tsl :: post)
    (hts : is_timestamp_line tsl = some ts)
    (hpost : ∀ l ∈ post, is_timestamp_line l = none)
    (hpre : ∀ l ∈ pre, is_timestamp_line l ≠ some ts) :
    dget (parse_last_usage_file content) ts = dget (parse_usage_file content) ts := by
  have hone : content ≠ ("") := by
    intro e
    subst e
    rw [show pySplitlines ("") = [] from rfl] at hA
    have := congrArg List.length hA
    simp at this
    omega
  have hsz : (content.utf8ByteSize == 0) = false := by
    cases hb : (content.utf8ByteSize == 0) with
    | false => rfl
    | true =>
      exact absurd (eq_empty_of_utf8ByteSize_eq_zero (by simpa using hb)) hone
  unfold parse_last_usage_file
  rw [hsz]
  simp only [Bool.false_eq_true, if_false]
  unfold tryWindows
  rw [tailWindow_of_le hsize, hA, lastTsSuffix_concat hts hpost]
  unfold parse_usage_file
  rw [hB]
  exact parse_lines_last_block hts hpost hpre

/-- Witness for C2 (amended) at a one-block file. -/
theorem claim2_last_block_agreement_witness :
    ("Thu Dec 18 04:37:01 2025\n1 u gres/gpu:a40=1 RUNNING").utf8ByteSize
        ≤ 4 * 1024 * 1024
    ∧ pySplitlines ("Thu Dec 18 04:37:01 2025\n1 u gres/gpu:a40=1 RUNNING")
        = [] ++ ("Thu Dec 18 04:37:01 2025") :: [("1 u gres/gpu:a40=1 RUNNING")]
    ∧ fileLines ("Thu Dec 18 04:37:01 2025\n1 u gres/gpu:a40=1 RUNNING")
        = [] ++ ("Thu Dec 18 04:37:01 2025") :: [("1 u gres/gpu:a40=1 RUNNING")]
    ∧ is_timestamp_line ("Thu Dec 18 04:37:01 2025")
        = some ("Thu Dec 18 04:37:01 2025")
    ∧ dget (parse_last_usage_file
          ("Thu Dec 18 04:37:01 2025\n1 u gres/gpu:a40=1 RUNNING"))
        ("Thu Dec 18 04:37:01 2025")
      = dget (parse_usage_file
          ("Thu Dec 18 04:37:01 2025\n1 u gres/gpu:a40=1 RUNNING"))
        ("Thu Dec 18 04:37:01 2025") :=
  ⟨by decide, rfl, rfl, rfl,
    claim2_last_block_agreement
      ("Thu Dec 18 04:37:01 2025\n1 u gres/gpu:a40=1 RUNNING")
      [] [("1 u gres/gpu:a40=1 RUNNING")]
      ("Thu Dec 18 04:37:01 2025") ("Thu Dec 18 04:37:01 2025")
      (by decide) rfl rfl rfl
      (by
        intro l hl
        rw [List.mem_singleton] at hl
        subst hl
        rfl)
      (by intro l hl; cases hl)⟩

end Uso
